import Mathlib

/-!
Shallow embedding of the K-Means clustering engine of
`src/mlpack/methods/kmeans/kmeans_impl.hpp` (mlpack 2.0.2).

Modelling conventions:
* `arma` columns of doubles become lists of rationals (`Vec`); a dense matrix
  becomes its list of columns together with an explicit row count (`Mat`),
  since `n_rows` is meaningful in armadillo even for a matrix with no columns.
* The convergence residual is a double that may be NaN or infinite, so it is
  embedded as the inductive `Residual` with a finite-value constructor and
  explicit non-finite constructors; all finite arithmetic is exact.
* `Log::Fatal` aborts the call, embedded as `Except.error`; `Log::Warn`
  messages become a list of `Warning` tags attached to a successful result.
* The `do … while` convergence loop may genuinely not terminate
  (`maxIterations == 0` disables the iteration cap), so the loop is given
  explicit fuel and returns `none` when the fuel is exhausted before exit.
* The template parameters `MetricType`, `InitialPartitionPolicy`,
  `EmptyClusterPolicy` and `LloydStepType` are not part of the sampled source;
  the engine is therefore modelled parametrically over them (functions stored
  in the `KMeans` structure), exactly as the C++ engine is a template.
-/

/-- A point / matrix column: a list of rational coordinates
(model of an `arma` column of doubles). -/
abbrev Vec := List ℚ

/-- A dense matrix, stored as its list of columns (`cols`, so `n_cols` is
`cols.length`) together with its row count `nrows`. -/
structure Mat where
  nrows : ℕ
  cols : List Vec
  deriving DecidableEq

/-- The convergence residual returned by one Lloyd iteration: either a finite
double (embedded exactly as a rational) or NaN or an infinity. -/
inductive Residual where
  | val (q : ℚ)
  | nan
  | inf
  deriving DecidableEq

/-- `if (std::isnan(cNorm) || std::isinf(cNorm)) cNorm = 1e-4;`
(kmeans_impl.hpp lines 252-253): a non-finite residual is clamped to the
sentinel `1e-4`, a finite one is kept. -/
def clampResidual : Residual → ℚ
  | .val q => q
  | .nan => 1 / 10000
  | .inf => 1 / 10000

/-- The non-fatal warnings the engine can emit (kmeans_impl.hpp lines 163-169). -/
inductive Warning where
  | moreClustersThanPoints
  | zeroClusters
  deriving DecidableEq

/-- The fatal configuration errors (`Log::Fatal`) the engine can raise
(kmeans_impl.hpp lines 174-182 and 302-305). -/
inductive Fatal where
  | centroidColsMismatch
  | centroidRowsMismatch
  | assignmentSizeMismatch
  deriving DecidableEq

/-- The warnings emitted at the top of `KMeans::Cluster`
(lines 163-169: an `if` / `else if` chain, so at most one fires). -/
def configWarnings (data : Mat) (clusters : ℕ) : List Warning :=
  if clusters > data.cols.length then [.moreClustersThanPoints]
  else if clusters = 0 then [.zeroClusters]
  else []

/-- All-zero column of the given length (`centroids.zeros`). -/
def zeroVec (n : ℕ) : Vec := List.replicate n 0

/-- Componentwise sum of two columns (`centroids.col(a) += data.col(i)`). -/
def vecAdd (u v : Vec) : Vec := List.zipWith (· + ·) u v

/-- Replace entry `i` of a list by `f` of it; out-of-range indices leave the
list unchanged (in C++ such an access would be out of bounds). -/
def updateAt : List α → ℕ → (α → α) → List α
  | [], _, _ => []
  | a :: l, 0, f => f a :: l
  | a :: l, n + 1, f => a :: updateAt l n f

/-- The accumulation loop of kmeans_impl.hpp lines 203-207 (and 311-315):
for every point `i`, `centroids.col(assignments[i]) += data.col(i);
counts[assignments[i]]++`. -/
def accumPoints : List Vec → List ℕ → List Vec → List ℕ → List Vec × List ℕ
  | [], _, cents, counts => (cents, counts)
  | _ :: _, [], cents, counts => (cents, counts)
  | x :: xs, a :: asRest, cents, counts =>
      accumPoints xs asRest (updateAt cents a (fun c => vecAdd c x))
        (updateAt counts a (· + 1))

/-- The normalization loop of kmeans_impl.hpp lines 209-211 (and 317-319):
`for i < clusters: if (counts[i] != 0) centroids.col(i) /= counts[i]`. -/
def divideByCounts : List Vec → List ℕ → List Vec
  | [], _ => []
  | _ :: _, [] => []
  | c :: cs, k :: ks =>
      (if k ≠ 0 then c.map (· / (k : ℚ)) else c) :: divideByCounts cs ks

/-- Initial centroids derived from per-point assignments
(kmeans_impl.hpp lines 200-211, textually repeated at lines 308-319):
zero the centroid matrix and the counts, accumulate every point into the
column of its assigned cluster, then divide each column with nonzero count
by that count.  Returns the centroid columns and the counts. -/
def initialCentroidsFromAssignments (nrows : ℕ) (ds : List Vec) (asg : List ℕ)
    (clusters : ℕ) : List Vec × List ℕ :=
  let acc := accumPoints ds asg (List.replicate clusters (zeroVec nrows))
    (List.replicate clusters 0)
  (divideByCounts acc.1 acc.2, acc.2)

/-- Specification-side definition for the refinement claims: the points of
`ds` assigned to cluster `i` by `asg`, in dataset order. -/
def assignedPoints (ds : List Vec) (asg : List ℕ) (i : ℕ) : List Vec :=
  ((ds.zip asg).filter (fun p => p.2 == i)).map Prod.fst

/-- Specification-side definition: the arithmetic mean of the points assigned
to cluster `i`, or the all-zero column when no point is assigned to it. -/
def clusterMean (nrows : ℕ) (ds : List Vec) (asg : List ℕ) (i : ℕ) : Vec :=
  let pts := assignedPoints ds asg i
  if pts.length = 0 then zeroVec nrows
  else (pts.foldl vecAdd (zeroVec nrows)).map (· / (pts.length : ℚ))

/-- The nearest-centroid scan of kmeans_impl.hpp lines 330-342: running state
is `(minDistance, closestCluster)` where `minDistance = none` models the
initial `std::numeric_limits<double>::infinity()` (every finite distance
compares strictly below it) and the update fires on `distance < minDistance`
only, so the first centroid attaining the minimum is kept. -/
def scanCentroids (dist : Vec → Vec → ℚ) (x : Vec) :
    List Vec → ℕ → Option ℚ × ℕ → Option ℚ × ℕ
  | [], _, st => st
  | c :: rest, j, st =>
      let d := dist x c
      let st' := match st with
        | (none, _) => (some d, j)
        | (some m, cl) => if d < m then (some d, j) else (some m, cl)
      scanCentroids dist x rest (j + 1) st'

/-- `closestCluster` for one point (kmeans_impl.hpp lines 329-345):
initialized to `centroids.n_cols` (an invalid value), then the scan over all
centroids. -/
def closestCentroid (dist : Vec → Vec → ℚ) (cents : List Vec) (x : Vec) : ℕ :=
  (scanCentroids dist x cents 0 (none, cents.length)).2

/-- The final-assignment pass of kmeans_impl.hpp lines 326-346: one
nearest-centroid scan per point. -/
def finalAssignments (dist : Vec → Vec → ℚ) (data : Mat) (centroids : Mat) :
    List ℕ :=
  data.cols.map (closestCentroid dist centroids.cols)

/-- One iteration's mutable state of `KMeans::Cluster`: the two centroid
buffers, the per-cluster counts, the iteration counter and the last (clamped)
residual. -/
structure LoopState where
  centroids : Mat
  centroidsOther : Mat
  counts : List ℕ
  iteration : ℕ
  cNorm : ℚ
  deriving DecidableEq

/-- The empty-cluster scan of kmeans_impl.hpp lines 235-247, sequential over
cluster indices: whenever `counts[i] == 0`, the `EmptyClusterPolicy` is
invoked with the (read-only) old buffer and may rewrite the new buffer and
the counts. -/
def emptyPassAux (empty : ℕ → Mat → Mat → List ℕ → ℕ → Mat × List ℕ)
    (oldC : Mat) (iteration : ℕ) :
    List ℕ → Mat → List ℕ → Mat × List ℕ
  | [], newC, counts => (newC, counts)
  | i :: is, newC, counts =>
      if counts.getD i 0 = 0 then
        let out := empty i oldC newC counts iteration
        emptyPassAux empty oldC iteration is out.1 out.2
      else
        emptyPassAux empty oldC iteration is newC counts

/-- The empty-cluster loop `for (i = 0; i < clusters; i++)` of
kmeans_impl.hpp lines 235-247. -/
def emptyClusterPass (empty : ℕ → Mat → Mat → List ℕ → ℕ → Mat × List ℕ)
    (clusters : ℕ) (oldC newC : Mat) (counts : List ℕ) (iteration : ℕ) :
    Mat × List ℕ :=
  emptyPassAux empty oldC iteration (List.range clusters) newC counts

/-- One execution of the `do` body (kmeans_impl.hpp lines 224-253):
depending on the parity of the iteration counter, `lloydStep.Iterate` reads
one centroid buffer and rewrites the other (together with the counts and a
raw residual); then the empty-cluster pass runs, the counter is incremented,
and the residual is clamped.  `step` is the model of
`lloydStep.Iterate(current, next, counts)` as a function of the current
buffer (the next buffer and the counts are fully overwritten). -/
def lloydBody (step : Mat → Mat × List ℕ × Residual)
    (empty : ℕ → Mat → Mat → List ℕ → ℕ → Mat × List ℕ)
    (clusters : ℕ) (s : LoopState) : LoopState :=
  if s.iteration % 2 = 0 then
    let out := step s.centroids
    let ep := emptyClusterPass empty clusters s.centroids out.1 out.2.1
      s.iteration
    ⟨s.centroids, ep.1, ep.2, s.iteration + 1, clampResidual out.2.2⟩
  else
    let out := step s.centroidsOther
    let ep := emptyClusterPass empty clusters s.centroidsOther out.1 out.2.1
      s.iteration
    ⟨ep.1, s.centroidsOther, ep.2, s.iteration + 1, clampResidual out.2.2⟩

/-- The `do … while (cNorm > 1e-5 && iteration != maxIterations)` loop
(kmeans_impl.hpp lines 224-255), with explicit fuel: `none` means the fuel
ran out before the loop exited (with `maxIterations = 0` the loop is
genuinely unbounded). -/
def lloydLoop (step : Mat → Mat × List ℕ × Residual)
    (empty : ℕ → Mat → Mat → List ℕ → ℕ → Mat × List ℕ)
    (clusters maxIterations : ℕ) : ℕ → LoopState → Option LoopState
  | 0, _ => none
  | fuel + 1, s =>
      let s' := lloydBody step empty clusters s
      if 1 / 100000 < s'.cNorm ∧ s'.iteration ≠ maxIterations then
        lloydLoop step empty clusters maxIterations fuel s'
      else some s'

/-- The buffer handed back after the loop (kmeans_impl.hpp lines 260-261):
`if ((iteration - 1) % 2 == 0) centroids.steal_mem(centroidsOther)`. -/
def stealCentroids (s : LoopState) : Mat :=
  if (s.iteration - 1) % 2 = 0 then s.centroidsOther else s.centroids

/-- Specification-side definition for the buffer-steal refinement claim: the
contents, at the end of a loop body starting from state `s`, of the buffer
that this body's Lloyd iteration wrote (the body reads `centroids` and writes
`centroidsOther` when the iteration index is even, and conversely when odd). -/
def lastWrittenBuffer (step : Mat → Mat × List ℕ × Residual)
    (empty : ℕ → Mat → Mat → List ℕ → ℕ → Mat × List ℕ)
    (clusters : ℕ) (s : LoopState) : Mat :=
  if s.iteration % 2 = 0 then (lloydBody step empty clusters s).centroidsOther
  else (lloydBody step empty clusters s).centroids

/-- The buffer that the body starting from state `s` reads (the "current"
buffer of the iteration about to execute). -/
def currentBuffer (s : LoopState) : Mat :=
  if s.iteration % 2 = 0 then s.centroids else s.centroidsOther

/-- The raw (unclamped) residual the Lloyd step produces at state `s`. -/
def rawResidual (step : Mat → Mat × List ℕ × Residual) (s : LoopState) :
    Residual :=
  (step (currentBuffer s)).2.2

/-- The `InitialPartitionPolicy`: compile-time capability detection
(`GivesCentroids`, kmeans_impl.hpp lines 35-89) selects between an
assignment-returning and a centroid-returning policy, embedded as a tagged
variant. -/
inductive Partitioner where
  | assignPart (f : Mat → ℕ → List ℕ)
  | centPart (f : Mat → ℕ → Mat)

/-- Initial-centroid computation of kmeans_impl.hpp lines 187-213: a supplied
guess is used as-is; otherwise the partitioner runs, and if it returned
assignments the initial centroids are derived from them. -/
def initialCentroids (partitioner : Partitioner) (data : Mat) (clusters : ℕ)
    (centroids : Mat) (initialGuess : Bool) : Mat :=
  if initialGuess then centroids
  else
    match partitioner with
    | .centPart f => f data clusters
    | .assignPart f =>
        let asg := f data clusters
        ⟨data.nrows,
          (initialCentroidsFromAssignments data.nrows data.cols asg
            clusters).1⟩

/-- The `KMeans` object (kmeans.hpp / kmeans_impl.hpp lines 105-115): the
iteration cap and the three policy template parameters, plus the Lloyd step
(`LloydStepType(data, metric).Iterate`) modelled as a function of the data
and the current centroid buffer. -/
structure KMeans where
  maxIterations : ℕ
  metric : Vec → Vec → ℚ
  partitioner : Partitioner
  emptyClusterAction : Mat → ℕ → Mat → Mat → List ℕ → ℕ → Mat × List ℕ
  lloydStep : Mat → Mat → Mat × List ℕ × Residual

/-- `KMeans::Cluster(data, clusters, centroids, initialGuess)`
(kmeans_impl.hpp lines 158-275): warnings, guess validation (fatal on shape
mismatch), initial centroids, the convergence loop, and the buffer steal.
On success the final `LoopState` is returned alongside the output centroid
matrix (`none` when the fuel ran out before loop exit). -/
def KMeans.Cluster (km : KMeans) (fuel : ℕ) (data : Mat) (clusters : ℕ)
    (centroids : Mat) (initialGuess : Bool) :
    Except Fatal (List Warning × Option (LoopState × Mat)) :=
  if initialGuess = true ∧ centroids.cols.length ≠ clusters then
    .error .centroidColsMismatch
  else if initialGuess = true ∧ centroids.nrows ≠ data.nrows then
    .error .centroidRowsMismatch
  else
    let c0 := initialCentroids km.partitioner data clusters centroids
      initialGuess
    let s0 : LoopState := ⟨c0, ⟨0, []⟩, List.replicate clusters 0, 0, 0⟩
    match lloydLoop (km.lloydStep data) (km.emptyClusterAction data) clusters
      km.maxIterations fuel s0 with
    | none => .ok (configWarnings data clusters, none)
    | some s => .ok (configWarnings data clusters, some (s, stealCentroids s))

/-- `KMeans::Cluster(data, clusters, assignments, centroids,
initialAssignmentGuess, initialCentroidGuess)` (kmeans_impl.hpp lines
292-347): validate an assignment guess (fatal on length mismatch) and, when
present, overwrite the centroid matrix with centroids recomputed from it;
run the centroid overload with `initialAssignmentGuess || initialCentroidGuess`;
finally recompute the assignments with one nearest-centroid pass. -/
def KMeans.ClusterWithAssignments (km : KMeans) (fuel : ℕ) (data : Mat)
    (clusters : ℕ) (assignments : List ℕ) (centroids : Mat)
    (initialAssignmentGuess initialCentroidGuess : Bool) :
    Except Fatal (List Warning × Option (LoopState × Mat × List ℕ)) :=
  if initialAssignmentGuess = true ∧ assignments.length ≠ data.cols.length then
    .error .assignmentSizeMismatch
  else
    let cent' := if initialAssignmentGuess then
        ⟨data.nrows,
          (initialCentroidsFromAssignments data.nrows data.cols assignments
            clusters).1⟩
      else centroids
    match km.Cluster fuel data clusters cent'
      (initialAssignmentGuess || initialCentroidGuess) with
    | .error e => .error e
    | .ok (w, none) => .ok (w, none)
    | .ok (w, some (s, c)) =>
        .ok (w, some (s, c, finalAssignments km.metric data c))

/-- The 1-dimensional absolute-difference metric (summed coordinatewise), a
concrete `MetricType` used for the concrete runs below. -/
def distAbs : Vec → Vec → ℚ :=
  fun u v => (List.zipWith (fun a b : ℚ => |a - b|) u v).sum

/-- Entrywise L1 distance between two matrices, the concrete norm used as the
convergence residual of the modelled Lloyd step below. -/
def matDistL1 (a b : Mat) : ℚ :=
  (List.zipWith (fun u v => (List.zipWith (fun p q : ℚ => |p - q|) u v).sum)
    a.cols b.cols).sum

/-- Modelled from the spec: the per-iteration Lloyd update (`LloydStepType`,
the `NaiveKMeans` default; `naive_kmeans_impl.hpp` is not part of the sampled
source).  Spec 4.2: for every point find the nearest centroid in the current
buffer (ties to the lowest index), accumulate it into that cluster's column
of the next buffer and bump the count; divide each nonzero-count column by
its count; the residual is a norm between the current and the new buffer
(here the entrywise L1 matrix norm). -/
def naiveStep (dist : Vec → Vec → ℚ) (data : Mat) (centroids : Mat) :
    Mat × List ℕ × Residual :=
  let clusters := centroids.cols.length
  let asg := data.cols.map (closestCentroid dist centroids.cols)
  let acc := initialCentroidsFromAssignments data.nrows data.cols asg clusters
  (⟨data.nrows, acc.1⟩, acc.2, .val (matDistL1 centroids ⟨data.nrows, acc.1⟩))

/-- Modelled from the spec: an `EmptyClusterPolicy` that leaves empty clusters
alone (spec 7: "counts may legitimately remain zero if the policy chooses not
to reseed"; the concrete policy classes are not part of the sampled source). -/
def allowEmptyAction : Mat → ℕ → Mat → Mat → List ℕ → ℕ → Mat × List ℕ :=
  fun _ _ _ newC counts _ => (newC, counts)

/-- A trivial centroid-returning partitioner (unused on runs that supply an
initial guess). -/
def trivialPartitioner : Partitioner := .centPart (fun _ _ => ⟨0, []⟩)

/-- A concrete engine for the concrete runs: absolute-difference metric, the
spec-modelled naive Lloyd step, the leave-empty policy. -/
def kmTest (maxIter : ℕ) : KMeans :=
  ⟨maxIter, distAbs, trivialPartitioner, allowEmptyAction,
    fun data cents => naiveStep distAbs data cents⟩

/-- A Lloyd step that always reports a NaN residual (exercises the clamp). -/
def nanStep : Mat → Mat × List ℕ × Residual := fun c => (c, [1], .nan)

/-- One-point, one-cluster dataset for small concrete runs. -/
def dataOne : Mat := ⟨1, [[0]]⟩

/-- Three 1-dimensional points 0, 1, 3: two Lloyd iterations are needed from
centroids (0, 2). -/
def dataThree : Mat := ⟨1, [[0], [1], [3]]⟩

/-- Warnings component of a `Cluster` result. -/
def resultWarnings :
    Except Fatal (List Warning × Option (LoopState × Mat)) →
    Option (List Warning)
  | .ok (w, _) => some w
  | .error _ => none

/-- Final iteration counter of a completed `Cluster` run. -/
def resultIterations :
    Except Fatal (List Warning × Option (LoopState × Mat)) → Option ℕ
  | .ok (_, some (s, _)) => some s.iteration
  | _ => none

/-- Output centroid matrix of a completed `Cluster` run. -/
def resultCentroids :
    Except Fatal (List Warning × Option (LoopState × Mat)) → Option Mat
  | .ok (_, some (_, c)) => some c
  | _ => none

/-- Decidable equality of `Except` results (not provided by the core
library), so concrete runs can be checked by `decide`. -/
instance [DecidableEq ε] [DecidableEq α] : DecidableEq (Except ε α)
  | .error a, .error b =>
      if h : a = b then .isTrue (congrArg Except.error h)
      else .isFalse (fun hc => h (Except.error.inj hc))
  | .error _, .ok _ => .isFalse (fun hc => Except.noConfusion hc)
  | .ok _, .error _ => .isFalse (fun hc => Except.noConfusion hc)
  | .ok a, .ok b =>
      if h : a = b then .isTrue (congrArg Except.ok h)
      else .isFalse (fun hc => h (Except.ok.inj hc))

/-- The loop state after the one (converging) iteration of the small
one-point run used by several witnesses below. -/
def stateOne : LoopState := ⟨dataOne, dataOne, [1], 1, 0⟩

/-- A fresh loop state (the state on loop entry for a one-cluster run whose
initial centroids are `dataOne`). -/
def stateZero : LoopState := ⟨dataOne, ⟨0, []⟩, [0], 0, 0⟩

/-- First run for the idempotence scenario: centroid guess `(0, 2 - 1e-5)`,
which converges in one iteration to the centroids `(0, 2)`. -/
def runFirst : Except Fatal (List Warning × Option (LoopState × Mat)) :=
  (kmTest 100).Cluster 100 dataThree 2 ⟨1, [[0], [2 - 1 / 100000]]⟩ true

/-- Second run for the idempotence scenario: the first run's output `(0, 2)`
supplied as the initial centroid guess. -/
def runSecond : Except Fatal (List Warning × Option (LoopState × Mat)) :=
  (kmTest 100).Cluster 100 dataThree 2 ⟨1, [[0], [2]]⟩ true

/-! ### Helper lemmas about the convergence loop -/

theorem lloydBody_iteration (step : Mat → Mat × List ℕ × Residual)
    (empty : ℕ → Mat → Mat → List ℕ → ℕ → Mat × List ℕ)
    (clusters : ℕ) (s : LoopState) :
    (lloydBody step empty clusters s).iteration = s.iteration + 1 := by
  unfold lloydBody
  split <;> rfl

theorem lloydLoop_some_body (step : Mat → Mat × List ℕ × Residual)
    (empty : ℕ → Mat → Mat → List ℕ → ℕ → Mat × List ℕ)
    (clusters M : ℕ) :
    ∀ (fuel : ℕ) (s s' : LoopState),
      lloydLoop step empty clusters M fuel s = some s' →
      ∃ t, s' = lloydBody step empty clusters t := by
  intro fuel
  induction fuel with
  | zero => intro s s' h; simp [lloydLoop] at h
  | succ n ih =>
      intro s s' h
      simp only [lloydLoop] at h
      by_cases hc : 1 / 100000 < (lloydBody step empty clusters s).cNorm ∧
          (lloydBody step empty clusters s).iteration ≠ M
      · rw [if_pos hc] at h
        exact ih _ _ h
      · rw [if_neg hc] at h
        exact ⟨s, (Option.some.inj h).symm⟩

theorem lloydLoop_terminates_within (step : Mat → Mat × List ℕ × Residual)
    (empty : ℕ → Mat → Mat → List ℕ → ℕ → Mat × List ℕ)
    (clusters M : ℕ) :
    ∀ (fuel : ℕ) (s : LoopState), s.iteration < M → M ≤ s.iteration + fuel →
      ∃ s', lloydLoop step empty clusters M fuel s = some s' ∧
        s'.iteration ≤ M := by
  intro fuel
  induction fuel with
  | zero => intro s h1 h2; omega
  | succ n ih =>
      intro s h1 h2
      have hit := lloydBody_iteration step empty clusters s
      simp only [lloydLoop]
      by_cases hc : 1 / 100000 < (lloydBody step empty clusters s).cNorm ∧
          (lloydBody step empty clusters s).iteration ≠ M
      · rw [if_pos hc]
        have hne := hc.2
        exact ih (lloydBody step empty clusters s) (by omega) (by omega)
      · rw [if_neg hc]
        exact ⟨lloydBody step empty clusters s, rfl, by omega⟩

theorem stealCentroids_body (step : Mat → Mat × List ℕ × Residual)
    (empty : ℕ → Mat → Mat → List ℕ → ℕ → Mat × List ℕ)
    (clusters : ℕ) (s : LoopState) :
    stealCentroids (lloydBody step empty clusters s) =
      lastWrittenBuffer step empty clusters s := by
  unfold stealCentroids lastWrittenBuffer
  rw [lloydBody_iteration]
  simp

theorem Cluster_ok_some (km : KMeans) (fuel : ℕ) (data : Mat) (clusters : ℕ)
    (cent : Mat) (g : Bool) (w : List Warning) (s : LoopState) (c : Mat)
    (h : km.Cluster fuel data clusters cent g = .ok (w, some (s, c))) :
    lloydLoop (km.lloydStep data) (km.emptyClusterAction data) clusters
        km.maxIterations fuel
        ⟨initialCentroids km.partitioner data clusters cent g, ⟨0, []⟩,
          List.replicate clusters 0, 0, 0⟩ = some s ∧
      c = stealCentroids s ∧ w = configWarnings data clusters := by
  simp only [KMeans.Cluster] at h
  split at h
  · exact Except.noConfusion h
  · split at h
    · exact Except.noConfusion h
    · split at h
      · simp at h
      · rename_i x heq
        simp only [Except.ok.injEq, Prod.mk.injEq, Option.some.injEq] at h
        obtain ⟨hw, hs, hc⟩ := h
        subst hw
        subst hs
        subst hc
        exact ⟨heq, rfl, rfl⟩

/-! ### Claim C4: the loop performs at most `maxIterations` iterations -/

/-- Claim C4: for every run with configured maximum iteration count `M > 0`
(and fuel at least `M`), the convergence loop completes, executes at most
`M` iterations, and the iteration counter of the final state never exceeds
`M`. -/
theorem cluster_iteration_bounded_by_max (km : KMeans) (fuel : ℕ) (data : Mat)
    (clusters : ℕ) (cent : Mat) (g : Bool) (w : List Warning)
    (r : Option (LoopState × Mat))
    (hM : 0 < km.maxIterations) (hfuel : km.maxIterations ≤ fuel)
    (h : km.Cluster fuel data clusters cent g = .ok (w, r)) :
    ∃ s c, r = some (s, c) ∧ s.iteration ≤ km.maxIterations := by
  simp only [KMeans.Cluster] at h
  split at h
  · exact Except.noConfusion h
  · split at h
    · exact Except.noConfusion h
    · obtain ⟨s', hs', hle⟩ := lloydLoop_terminates_within (km.lloydStep data)
        (km.emptyClusterAction data) clusters km.maxIterations fuel
        ⟨initialCentroids km.partitioner data clusters cent g, ⟨0, []⟩,
          List.replicate clusters 0, 0, 0⟩ hM (by simpa using hfuel)
      rw [hs'] at h
      simp only [Except.ok.injEq, Prod.mk.injEq] at h
      exact ⟨s', stealCentroids s', h.2.symm, hle⟩

set_option maxRecDepth 8000 in
/-- Witness for C4 at a concrete one-point, one-cluster run. -/
theorem cluster_iteration_bounded_by_max_witness :
    0 < (kmTest 3).maxIterations ∧ (kmTest 3).maxIterations ≤ 3 ∧
      (kmTest 3).Cluster 3 dataOne 1 dataOne true =
        .ok ([], some (stateOne, dataOne)) ∧
      ∃ s c, (some (stateOne, dataOne) : Option (LoopState × Mat)) =
          some (s, c) ∧ s.iteration ≤ (kmTest 3).maxIterations :=
  ⟨by decide, by decide, by with_unfolding_all decide,
    cluster_iteration_bounded_by_max (kmTest 3) 3 dataOne 1 dataOne true []
      (some (stateOne, dataOne)) (by decide) (by decide)
      (by with_unfolding_all decide)⟩

/-! ### Claim C10: the do-while body always runs at least once -/

/-- Claim C10: every completed `Cluster` call executed the loop body at least
once before any termination test (the loop is `do … while`), so the final
iteration counter is at least 1 — even when a supplied guess already meets
the residual threshold or `maxIterations = 1`. -/
theorem cluster_executes_at_least_one_iteration (km : KMeans) (fuel : ℕ)
    (data : Mat) (clusters : ℕ) (cent : Mat) (g : Bool) (w : List Warning)
    (s : LoopState) (c : Mat)
    (h : km.Cluster fuel data clusters cent g = .ok (w, some (s, c))) :
    1 ≤ s.iteration := by
  obtain ⟨hloop, -, -⟩ := Cluster_ok_some km fuel data clusters cent g w s c h
  obtain ⟨t, ht⟩ := lloydLoop_some_body (km.lloydStep data)
    (km.emptyClusterAction data) clusters km.maxIterations fuel _ s hloop
  rw [ht, lloydBody_iteration]
  omega

set_option maxRecDepth 8000 in
/-- Witness for C10: a run with `maxIterations = 1` whose initial guess is
already optimal still executes one iteration. -/
theorem cluster_executes_at_least_one_iteration_witness :
    (kmTest 1).Cluster 3 dataOne 1 dataOne true =
        .ok ([], some (stateOne, dataOne)) ∧
      1 ≤ stateOne.iteration :=
  ⟨by with_unfolding_all decide,
    cluster_executes_at_least_one_iteration (kmTest 1) 3 dataOne 1 dataOne
      true [] stateOne dataOne (by with_unfolding_all decide)⟩

/-! ### Claim C5: the steal hands back the most recently written buffer -/

/-- Claim C5: on loop exit the returned centroid matrix is the buffer that
the most recent Lloyd iteration wrote: the final state is the image of one
loop-body execution, and the output centroids (`steal_mem` when the last
executed iteration index `iteration - 1` is even, the primary buffer
otherwise) are exactly `lastWrittenBuffer` of that last body execution. -/
theorem cluster_returns_most_recently_written_buffer (km : KMeans) (fuel : ℕ)
    (data : Mat) (clusters : ℕ) (cent : Mat) (g : Bool) (w : List Warning)
    (s : LoopState) (c : Mat)
    (h : km.Cluster fuel data clusters cent g = .ok (w, some (s, c))) :
    ∃ t, s = lloydBody (km.lloydStep data) (km.emptyClusterAction data)
        clusters t ∧
      c = lastWrittenBuffer (km.lloydStep data) (km.emptyClusterAction data)
        clusters t := by
  obtain ⟨hloop, hc, -⟩ := Cluster_ok_some km fuel data clusters cent g w s c h
  obtain ⟨t, ht⟩ := lloydLoop_some_body (km.lloydStep data)
    (km.emptyClusterAction data) clusters km.maxIterations fuel _ s hloop
  refine ⟨t, ht, ?_⟩
  rw [hc, ht, stealCentroids_body]

set_option maxRecDepth 8000 in
/-- Witness for C5 at a concrete run. -/
theorem cluster_returns_most_recently_written_buffer_witness :
    (kmTest 3).Cluster 3 dataOne 1 dataOne true =
        .ok ([], some (stateOne, dataOne)) ∧
      ∃ t, stateOne = lloydBody ((kmTest 3).lloydStep dataOne)
          ((kmTest 3).emptyClusterAction dataOne) 1 t ∧
        dataOne = lastWrittenBuffer ((kmTest 3).lloydStep dataOne)
          ((kmTest 3).emptyClusterAction dataOne) 1 t :=
  ⟨by with_unfolding_all decide,
    cluster_returns_most_recently_written_buffer (kmTest 3) 3 dataOne 1
      dataOne true [] stateOne dataOne (by with_unfolding_all decide)⟩

/-! ### Claim C6: NaN/Inf residuals are clamped and never end the loop -/

/-- Claim C6: when the Lloyd step produces a NaN or infinite residual, the
engine stores the sentinel `1e-4` instead, and since `1e-4 > 1e-5` the loop
cannot exit by the residual-threshold criterion on that iteration: it exits
exactly when the iteration cap is reached.  No error is produced (the loop
and its caller have no failure path for residuals). -/
theorem nan_inf_residual_clamped_keeps_iterating
    (step : Mat → Mat × List ℕ × Residual)
    (empty : ℕ → Mat → Mat → List ℕ → ℕ → Mat × List ℕ)
    (clusters M fuel : ℕ) (s : LoopState)
    (h : rawResidual step s = .nan ∨ rawResidual step s = .inf) :
    (lloydBody step empty clusters s).cNorm = 1 / 10000 ∧
      lloydLoop step empty clusters M (fuel + 1) s =
        (if (lloydBody step empty clusters s).iteration = M
          then some (lloydBody step empty clusters s)
          else lloydLoop step empty clusters M fuel
            (lloydBody step empty clusters s)) := by
  have hc : (lloydBody step empty clusters s).cNorm = 1 / 10000 := by
    unfold rawResidual currentBuffer at h
    unfold lloydBody
    split
    · rename_i hp
      rw [if_pos hp] at h
      rcases h with h | h <;> simp [clampResidual, h]
    · rename_i hp
      rw [if_neg hp] at h
      rcases h with h | h <;> simp [clampResidual, h]
  refine ⟨hc, ?_⟩
  simp only [lloydLoop]
  rw [hc]
  by_cases hM : (lloydBody step empty clusters s).iteration = M
  · rw [if_neg (fun hconj => hconj.2 hM), if_pos hM]
  · rw [if_pos ⟨by norm_num, hM⟩, if_neg hM]

/-- Witness for C6 with a step that reports a NaN residual. -/
theorem nan_inf_residual_clamped_keeps_iterating_witness :
    (rawResidual nanStep stateZero = .nan ∨
        rawResidual nanStep stateZero = .inf) ∧
      ((lloydBody nanStep (allowEmptyAction dataOne) 1 stateZero).cNorm =
          1 / 10000 ∧
        lloydLoop nanStep (allowEmptyAction dataOne) 1 5 (3 + 1) stateZero =
          (if (lloydBody nanStep (allowEmptyAction dataOne) 1
                stateZero).iteration = 5
            then some (lloydBody nanStep (allowEmptyAction dataOne) 1
              stateZero)
            else lloydLoop nanStep (allowEmptyAction dataOne) 1 5 3
              (lloydBody nanStep (allowEmptyAction dataOne) 1 stateZero))) :=
  ⟨by decide,
    nan_inf_residual_clamped_keeps_iterating nanStep
      (allowEmptyAction dataOne) 1 5 3 stateZero (by decide)⟩

/-! ### Claim C8 (corrected): rerunning from the previous final centroids -/

set_option maxRecDepth 40000 in
/-- Counterexample to C8 as stated: on the 1-dimensional dataset {0, 1, 3}
with K = 2, a first run from the centroid guess (0, 2 - 1e-5) converges by
the residual criterion and outputs the centroids (0, 2); a second run seeded
with exactly those centroids executes two Lloyd iterations, not at most one
(its first residual is 3/2: the distance tie for the point 1 breaks toward
cluster 0, which moves both centroids). -/
theorem rerun_from_final_centroids_cex :
    resultCentroids runFirst = some ⟨1, [[0], [2]]⟩ ∧
      resultIterations runSecond = some 2 := by
  with_unfolding_all decide

/-- Claim C8 (amended): a second run whose supplied centroids already give a
first-iteration residual at or below the threshold — as happens exactly when
those centroids are (numerically) a fixed point of the Lloyd update — exits
the convergence loop after exactly one iteration; a rerun seeded with an
arbitrary previous run's final centroids need not satisfy this premise (see
the counterexample). -/
theorem rerun_converges_in_one_iteration_iff_residual_small
    (step : Mat → Mat × List ℕ × Residual)
    (empty : ℕ → Mat → Mat → List ℕ → ℕ → Mat × List ℕ)
    (clusters M fuel : ℕ) (s0 : LoopState)
    (h0 : s0.iteration = 0)
    (hr : (lloydBody step empty clusters s0).cNorm ≤ 1 / 100000) :
    lloydLoop step empty clusters M (fuel + 1) s0 =
        some (lloydBody step empty clusters s0) ∧
      (lloydBody step empty clusters s0).iteration = 1 := by
  constructor
  · simp only [lloydLoop]
    rw [if_neg (fun hconj => absurd hconj.1 (not_lt.mpr hr))]
  · rw [lloydBody_iteration, h0]

set_option maxRecDepth 8000 in
/-- Witness for the amended C8 at a concrete converged run. -/
theorem rerun_converges_in_one_iteration_iff_residual_small_witness :
    stateZero.iteration = 0 ∧
      (lloydBody (fun c => naiveStep distAbs dataOne c)
          (allowEmptyAction dataOne) 1 stateZero).cNorm ≤ 1 / 100000 ∧
      (lloydLoop (fun c => naiveStep distAbs dataOne c)
            (allowEmptyAction dataOne) 1 7 (3 + 1) stateZero =
          some (lloydBody (fun c => naiveStep distAbs dataOne c)
            (allowEmptyAction dataOne) 1 stateZero) ∧
        (lloydBody (fun c => naiveStep distAbs dataOne c)
            (allowEmptyAction dataOne) 1 stateZero).iteration = 1) :=
  ⟨by decide, by with_unfolding_all decide,
    rerun_converges_in_one_iteration_iff_residual_small
      (fun c => naiveStep distAbs dataOne c) (allowEmptyAction dataOne) 1 7 3
      stateZero (by decide) (by with_unfolding_all decide)⟩

/-! ### Claim C3 (corrected): no warning for `maxIterations = 0` -/

set_option maxRecDepth 8000 in
/-- Counterexample to C3 as stated: a run with `maxIterations = 0` (and an
otherwise ordinary configuration, K = 1 ≤ N = 1) completes with an empty
warning list: the engine warns only for K > N and K = 0, never for
`maxIterations = 0`, which the loop condition simply treats as "no cap". -/
theorem max_iterations_zero_no_warning_cex :
    resultWarnings ((kmTest 0).Cluster 5 dataOne 1 dataOne true) = some [] ∧
      resultIterations ((kmTest 0).Cluster 5 dataOne 1 dataOne true) =
        some 1 := by
  with_unfolding_all decide

/-- Claim C3 (amended): the warnings of a completed run are exactly
`configWarnings data clusters` — they depend only on K and N (K > N or
K = 0) and never on `maxIterations`; a `maxIterations = 0` run therefore
emits no degenerate-configuration warning and still proceeds. -/
theorem cluster_warnings_only_about_cluster_count (km : KMeans) (fuel : ℕ)
    (data : Mat) (clusters : ℕ) (cent : Mat) (g : Bool) (w : List Warning)
    (r : Option (LoopState × Mat))
    (h : km.Cluster fuel data clusters cent g = .ok (w, r)) :
    w = configWarnings data clusters ∧
      ∀ x ∈ w, x = Warning.moreClustersThanPoints ∨
        x = Warning.zeroClusters := by
  have hw : w = configWarnings data clusters := by
    simp only [KMeans.Cluster] at h
    split at h
    · exact Except.noConfusion h
    · split at h
      · exact Except.noConfusion h
      · split at h
        · simp only [Except.ok.injEq, Prod.mk.injEq] at h
          exact h.1.symm
        · simp only [Except.ok.injEq, Prod.mk.injEq] at h
          exact h.1.symm
  refine ⟨hw, ?_⟩
  intro x hx
  rw [hw] at hx
  unfold configWarnings at hx
  split at hx
  · simp at hx
    exact Or.inl hx
  · split at hx
    · simp at hx
      exact Or.inr hx
    · simp at hx

set_option maxRecDepth 8000 in
/-- Witness for the amended C3 at a concrete `maxIterations = 0` run. -/
theorem cluster_warnings_only_about_cluster_count_witness :
    ((kmTest 0).Cluster 5 dataOne 1 dataOne true =
        .ok ([], some (stateOne, dataOne))) ∧
      (([] : List Warning) = configWarnings dataOne 1 ∧
        ∀ x ∈ ([] : List Warning), x = Warning.moreClustersThanPoints ∨
          x = Warning.zeroClusters) :=
  ⟨by with_unfolding_all decide,
    cluster_warnings_only_about_cluster_count (kmTest 0) 5 dataOne 1 dataOne
      true [] (some (stateOne, dataOne)) (by with_unfolding_all decide)⟩

/-! ### Claim C9: an assignment guess overrides a centroid guess -/

/-- Claim C9: in the overload taking both guesses, whenever the
assignment-guess flag is set the supplied centroid matrix is unconditionally
overwritten with centroids recomputed from the assignment guess (zeroed,
then accumulated and averaged per cluster), so the call's result is
independent of both the supplied centroid matrix and the centroid-guess
flag. -/
theorem assignment_guess_overrides_centroid_guess (km : KMeans) (fuel : ℕ)
    (data : Mat) (clusters : ℕ) (asg : List ℕ) (cent cent' : Mat)
    (cg cg' : Bool) :
    km.ClusterWithAssignments fuel data clusters asg cent true cg =
      km.ClusterWithAssignments fuel data clusters asg cent' true cg' := by
  simp only [KMeans.ClusterWithAssignments, Bool.true_or, if_true]

/-! ### Claim C2: fatal aborts happen exactly on guess-shape mismatches -/

theorem updateAt_length (l : List α) : ∀ (i : ℕ) (f : α → α),
    (updateAt l i f).length = l.length := by
  induction l with
  | nil => intro i f; rfl
  | cons a t ih =>
      intro i f
      cases i with
      | zero => rfl
      | succ n => simp [updateAt, ih]

theorem accumPoints_fst_length : ∀ (ds : List Vec) (asg : List ℕ)
    (cents : List Vec) (counts : List ℕ),
    (accumPoints ds asg cents counts).1.length = cents.length := by
  intro ds
  induction ds with
  | nil => intro asg cents counts; rfl
  | cons x xs ih =>
      intro asg cents counts
      cases asg with
      | nil => rfl
      | cons a asRest => rw [accumPoints, ih, updateAt_length]

theorem accumPoints_snd_length : ∀ (ds : List Vec) (asg : List ℕ)
    (cents : List Vec) (counts : List ℕ),
    (accumPoints ds asg cents counts).2.length = counts.length := by
  intro ds
  induction ds with
  | nil => intro asg cents counts; rfl
  | cons x xs ih =>
      intro asg cents counts
      cases asg with
      | nil => rfl
      | cons a asRest => rw [accumPoints, ih, updateAt_length]

theorem divideByCounts_length : ∀ (cs : List Vec) (ks : List ℕ),
    (divideByCounts cs ks).length = min cs.length ks.length := by
  intro cs
  induction cs with
  | nil => intro ks; simp [divideByCounts]
  | cons c cs ih =>
      intro ks
      cases ks with
      | nil => simp [divideByCounts]
      | cons k ks =>
          simp only [divideByCounts, List.length_cons, ih]
          omega

theorem initialCentroidsFromAssignments_fst_length (nrows : ℕ)
    (ds : List Vec) (asg : List ℕ) (clusters : ℕ) :
    (initialCentroidsFromAssignments nrows ds asg clusters).1.length =
      clusters := by
  simp only [initialCentroidsFromAssignments, divideByCounts_length,
    accumPoints_fst_length, accumPoints_snd_length, List.length_replicate]
  omega

theorem Cluster_error_iff (km : KMeans) (fuel : ℕ) (data : Mat)
    (clusters : ℕ) (cent : Mat) (g : Bool) :
    (∃ e, km.Cluster fuel data clusters cent g = .error e) ↔
      (g = true ∧ (cent.cols.length ≠ clusters ∨
        cent.nrows ≠ data.nrows)) := by
  simp only [KMeans.Cluster]
  split
  · rename_i h1
    constructor
    · intro _
      exact ⟨h1.1, Or.inl h1.2⟩
    · intro _
      exact ⟨_, rfl⟩
  · rename_i h1
    split
    · rename_i h2
      constructor
      · intro _
        exact ⟨h2.1, Or.inr h2.2⟩
      · intro _
        exact ⟨_, rfl⟩
    · rename_i h2
      have hnot : ¬(g = true ∧ (cent.cols.length ≠ clusters ∨
          cent.nrows ≠ data.nrows)) := by
        rintro ⟨hg, hx | hx⟩
        · exact h1 ⟨hg, hx⟩
        · exact h2 ⟨hg, hx⟩
      cases hl : lloydLoop (km.lloydStep data) (km.emptyClusterAction data)
          clusters km.maxIterations fuel
          ⟨initialCentroids km.partitioner data clusters cent g, ⟨0, []⟩,
            List.replicate clusters 0, 0, 0⟩ with
      | none => simp [hl, hnot]
      | some s => simp [hl, hnot]

/-- Claim C2: a call of the assignments-and-centroids overload aborts
fatally exactly when the supplied assignment guess has length different
from N, or (no assignment guess supplied) the supplied centroid guess has
column count different from K or row count different from D.  Every other
configuration — including the degenerate K = 0, K > N and
`maxIterations = 0` — produces no abort; the abort is raised before the
loop and the error carries no output. -/
theorem cluster_fatal_iff_guess_shape_mismatch (km : KMeans) (fuel : ℕ)
    (data : Mat) (clusters : ℕ) (asg : List ℕ) (cent : Mat)
    (iag icg : Bool) :
    (∃ e, km.ClusterWithAssignments fuel data clusters asg cent iag icg =
        .error e) ↔
      ((iag = true ∧ asg.length ≠ data.cols.length) ∨
        (iag = false ∧ icg = true ∧
          (cent.cols.length ≠ clusters ∨ cent.nrows ≠ data.nrows))) := by
  cases iag with
  | true =>
      simp only [KMeans.ClusterWithAssignments, if_true, Bool.true_or]
      by_cases hlen : asg.length ≠ data.cols.length
      · rw [if_pos ⟨by trivial, hlen⟩]
        simp [hlen]
      · rw [if_neg (fun hc => hlen hc.2)]
        have hcols : (⟨data.nrows,
            (initialCentroidsFromAssignments data.nrows data.cols asg
              clusters).1⟩ : Mat).cols.length = clusters :=
          initialCentroidsFromAssignments_fst_length _ _ _ _
        cases hc : km.Cluster fuel data clusters
            ⟨data.nrows, (initialCentroidsFromAssignments data.nrows
              data.cols asg clusters).1⟩ true with
        | error e =>
            exfalso
            have hmm := (Cluster_error_iff km fuel data clusters _ true).mp
              ⟨e, hc⟩
            rcases hmm.2 with hx | hx
            · exact hx hcols
            · exact hx rfl
        | ok p =>
            rcases p with ⟨w, r⟩
            rcases r with _ | ⟨s, c⟩ <;>
              simp [hc, not_not.mp hlen]
  | false =>
      simp only [KMeans.ClusterWithAssignments, Bool.false_or]
      rw [if_neg (fun hc => Bool.noConfusion hc.1), if_neg Bool.false_ne_true]
      have herr := Cluster_error_iff km fuel data clusters cent icg
      cases hc : km.Cluster fuel data clusters cent icg with
      | error e =>
          rw [hc] at herr
          simp only [Except.error.injEq, exists_eq'] at herr
          have hmm := herr.mp trivial
          exact iff_of_true ⟨e, rfl⟩ (Or.inr ⟨by trivial, hmm.1, hmm.2⟩)
      | ok p =>
          rw [hc] at herr
          rcases p with ⟨w, r⟩
          have hnot : ¬(icg = true ∧ (cent.cols.length ≠ clusters ∨
              cent.nrows ≠ data.nrows)) := by
            intro hx
            obtain ⟨e, he⟩ := herr.mpr hx
            exact Except.noConfusion he
          rcases r with _ | ⟨s, c⟩ <;> simp [hc, hnot]

/-! ### Claim C1: the final-assignment pass picks the nearest centroid -/

theorem scanCentroids_cons_some (dist : Vec → Vec → ℚ) (x c : Vec)
    (rest : List Vec) (j : ℕ) (m : ℚ) (cl : ℕ) :
    scanCentroids dist x (c :: rest) j (some m, cl) =
      scanCentroids dist x rest (j + 1)
        (if dist x c < m then (some (dist x c), j) else (some m, cl)) := rfl

theorem scanCentroids_min (dist : Vec → Vec → ℚ) (x : Vec) :
    ∀ (l : List Vec) (j : ℕ) (m : ℚ) (cl : ℕ),
      ∃ m' cl', scanCentroids dist x l j (some m, cl) = (some m', cl') ∧
        m' ≤ m ∧
        (∀ k, k < l.length → m' ≤ dist x (l.getD k [])) ∧
        ((m' = m ∧ cl' = cl) ∨
          (∃ k, k < l.length ∧ cl' = j + k ∧ m' = dist x (l.getD k []) ∧
            m' < m ∧ ∀ i, i < k → m' < dist x (l.getD i []))) := by
  intro l
  induction l with
  | nil =>
      intro j m cl
      exact ⟨m, cl, rfl, le_refl m, fun k hk => absurd hk (by simp),
        Or.inl ⟨rfl, rfl⟩⟩
  | cons c rest ih =>
      intro j m cl
      rw [scanCentroids_cons_some]
      by_cases hd : dist x c < m
      · rw [if_pos hd]
        obtain ⟨m', cl', heq, hle, hall, hbr⟩ := ih (j + 1) (dist x c) j
        refine ⟨m', cl', heq, le_of_lt (lt_of_le_of_lt hle hd), ?_, ?_⟩
        · intro k hk
          cases k with
          | zero => simpa using hle
          | succ n =>
              simp only [List.getD_cons_succ]
              exact hall n (by simp only [List.length_cons] at hk; omega)
        · rcases hbr with ⟨hm, hcl⟩ | ⟨k, hk, hcl, hm, hlt, htie⟩
          · right
            refine ⟨0, by simp, by omega, by simpa using hm,
              hm ▸ hd, ?_⟩
            intro i hi
            omega
          · right
            refine ⟨k + 1, by simp only [List.length_cons]; omega,
              by omega, by simpa using hm, lt_trans hlt hd, ?_⟩
            intro i hi
            cases i with
            | zero => simpa using hlt
            | succ n =>
                simp only [List.getD_cons_succ]
                exact htie n (by omega)
      · rw [if_neg hd]
        have hmd : m ≤ dist x c := not_lt.mp hd
        obtain ⟨m', cl', heq, hle, hall, hbr⟩ := ih (j + 1) m cl
        refine ⟨m', cl', heq, hle, ?_, ?_⟩
        · intro k hk
          cases k with
          | zero => simpa using le_trans hle hmd
          | succ n =>
              simp only [List.getD_cons_succ]
              exact hall n (by simp only [List.length_cons] at hk; omega)
        · rcases hbr with ⟨hm, hcl⟩ | ⟨k, hk, hcl, hm, hlt, htie⟩
          · exact Or.inl ⟨hm, hcl⟩
          · right
            refine ⟨k + 1, by simp only [List.length_cons]; omega,
              by omega, by simpa using hm, hlt, ?_⟩
            intro i hi
            cases i with
            | zero => simpa using lt_of_lt_of_le hlt hmd
            | succ n =>
                simp only [List.getD_cons_succ]
                exact htie n (by omega)

theorem closestCentroid_nearest (dist : Vec → Vec → ℚ) (cents : List Vec)
    (x : Vec) (hK : 0 < cents.length) :
    closestCentroid dist cents x < cents.length ∧
      (∀ i, i < cents.length →
        dist x (cents.getD (closestCentroid dist cents x) []) ≤
          dist x (cents.getD i [])) ∧
      (∀ i, i < closestCentroid dist cents x →
        dist x (cents.getD (closestCentroid dist cents x) []) <
          dist x (cents.getD i [])) := by
  cases cents with
  | nil => simp at hK
  | cons c rest =>
      obtain ⟨m', cl', heq, hle, hall, hbr⟩ :=
        scanCentroids_min dist x rest 1 (dist x c) 0
      have hcc : closestCentroid dist (c :: rest) x = cl' := by
        show (scanCentroids dist x (c :: rest) 0
          (none, (c :: rest).length)).2 = cl'
        have hstep : scanCentroids dist x (c :: rest) 0
            (none, (c :: rest).length) =
            scanCentroids dist x rest 1 (some (dist x c), 0) := rfl
        rw [hstep, heq]
      have hmcl : dist x ((c :: rest).getD cl' []) = m' := by
        rcases hbr with ⟨hm, hcl⟩ | ⟨k, hk, hcl, hm, hlt, htie⟩
        · rw [hcl, List.getD_cons_zero]
          exact hm.symm
        · rw [hcl, Nat.add_comm, List.getD_cons_succ]
          exact hm.symm
      rw [hcc]
      refine ⟨?_, ?_, ?_⟩
      · rcases hbr with ⟨hm, hcl⟩ | ⟨k, hk, hcl, hm, hlt, htie⟩
        · rw [hcl]
          simp
        · rw [hcl]
          simp only [List.length_cons]
          omega
      · intro i hi
        rw [hmcl]
        cases i with
        | zero =>
            rw [List.getD_cons_zero]
            exact hle
        | succ n =>
            rw [List.getD_cons_succ]
            exact hall n (by simp only [List.length_cons] at hi; omega)
      · intro i hi
        rw [hmcl]
        rcases hbr with ⟨hm, hcl⟩ | ⟨k, hk, hcl, hm, hlt, htie⟩
        · rw [hcl] at hi
          omega
        · rw [hcl] at hi
          cases i with
          | zero =>
              rw [List.getD_cons_zero]
              exact hlt
          | succ n =>
              rw [List.getD_cons_succ]
              exact htie n (by omega)

/-- Claim C1: when at least one centroid exists (K ≥ 1), every recomputed
final assignment is the index of a centroid at minimum distance under the
metric, with ties broken toward the lowest index (the chosen index strictly
beats every earlier one); consequently every entry of the assignment vector
produced by the final pass lies in [0, K). -/
theorem final_assignments_nearest_centroid (dist : Vec → Vec → ℚ)
    (data centroids : Mat) (hK : 0 < centroids.cols.length) :
    (∀ a ∈ finalAssignments dist data centroids,
        a < centroids.cols.length) ∧
      ∀ x ∈ data.cols,
        closestCentroid dist centroids.cols x < centroids.cols.length ∧
          (∀ i, i < centroids.cols.length →
            dist x (centroids.cols.getD
              (closestCentroid dist centroids.cols x) []) ≤
              dist x (centroids.cols.getD i [])) ∧
          (∀ i, i < closestCentroid dist centroids.cols x →
            dist x (centroids.cols.getD
              (closestCentroid dist centroids.cols x) []) <
              dist x (centroids.cols.getD i [])) := by
  constructor
  · intro a ha
    unfold finalAssignments at ha
    obtain ⟨x, hx, hax⟩ := List.mem_map.mp ha
    rw [← hax]
    exact (closestCentroid_nearest dist centroids.cols x hK).1
  · intro x hx
    exact closestCentroid_nearest dist centroids.cols x hK

set_option maxRecDepth 8000 in
/-- Witness for C1 on the three-point dataset with centroids (0, 2). -/
theorem final_assignments_nearest_centroid_witness :
    0 < (⟨1, [[0], [2]]⟩ : Mat).cols.length ∧
      ((∀ a ∈ finalAssignments distAbs dataThree ⟨1, [[0], [2]]⟩,
          a < (⟨1, [[0], [2]]⟩ : Mat).cols.length) ∧
        ∀ x ∈ dataThree.cols,
          closestCentroid distAbs (⟨1, [[0], [2]]⟩ : Mat).cols x <
              (⟨1, [[0], [2]]⟩ : Mat).cols.length ∧
            (∀ i, i < (⟨1, [[0], [2]]⟩ : Mat).cols.length →
              distAbs x ((⟨1, [[0], [2]]⟩ : Mat).cols.getD
                (closestCentroid distAbs
                  (⟨1, [[0], [2]]⟩ : Mat).cols x) []) ≤
                distAbs x ((⟨1, [[0], [2]]⟩ : Mat).cols.getD i [])) ∧
            (∀ i, i < closestCentroid distAbs
                (⟨1, [[0], [2]]⟩ : Mat).cols x →
              distAbs x ((⟨1, [[0], [2]]⟩ : Mat).cols.getD
                (closestCentroid distAbs
                  (⟨1, [[0], [2]]⟩ : Mat).cols x) []) <
                distAbs x ((⟨1, [[0], [2]]⟩ : Mat).cols.getD i []))) :=
  ⟨by decide,
    final_assignments_nearest_centroid distAbs dataThree ⟨1, [[0], [2]]⟩
      (by decide)⟩

/-! ### Claim C7: initial centroids from assignments are cluster means -/

theorem getD_updateAt_self (l : List α) : ∀ (i : ℕ) (f : α → α) (d : α),
    i < l.length → (updateAt l i f).getD i d = f (l.getD i d) := by
  induction l with
  | nil =>
      intro i f d h
      simp at h
  | cons a t ih =>
      intro i f d h
      cases i with
      | zero => rfl
      | succ n =>
          simp only [updateAt, List.getD_cons_succ]
          exact ih n f d (by simp only [List.length_cons] at h; omega)

theorem getD_updateAt_ne (l : List α) : ∀ (i j : ℕ) (f : α → α) (d : α),
    j ≠ i → (updateAt l j f).getD i d = l.getD i d := by
  induction l with
  | nil =>
      intro i j f d h
      rfl
  | cons a t ih =>
      intro i j f d h
      cases j with
      | zero =>
          cases i with
          | zero => exact absurd rfl h
          | succ n => rfl
      | succ m =>
          cases i with
          | zero => rfl
          | succ n =>
              simp only [updateAt, List.getD_cons_succ]
              exact ih n m f d (fun hc => h (by rw [hc]))

theorem getD_replicate_of_lt (a d : α) : ∀ (n i : ℕ), i < n →
    (List.replicate n a).getD i d = a := by
  intro n
  induction n with
  | zero =>
      intro i h
      omega
  | succ m ih =>
      intro i h
      cases i with
      | zero => rfl
      | succ k =>
          simp only [List.replicate_succ, List.getD_cons_succ]
          exact ih k (by omega)

theorem assignedPoints_cons (x : Vec) (xs : List Vec) (a : ℕ)
    (asRest : List ℕ) (i : ℕ) :
    assignedPoints (x :: xs) (a :: asRest) i =
      (if a = i then x :: assignedPoints xs asRest i
        else assignedPoints xs asRest i) := by
  unfold assignedPoints
  simp only [List.zip_cons_cons, List.filter_cons]
  by_cases h : a = i
  · simp [h]
  · simp [h]

theorem accumPoints_fst_getD (i : ℕ) : ∀ (ds : List Vec) (asg : List ℕ)
    (cents : List Vec) (counts : List ℕ), i < cents.length →
    (accumPoints ds asg cents counts).1.getD i [] =
      (assignedPoints ds asg i).foldl vecAdd (cents.getD i []) := by
  intro ds
  induction ds with
  | nil =>
      intro asg cents counts hi
      simp [accumPoints, assignedPoints]
  | cons x xs ih =>
      intro asg cents counts hi
      cases asg with
      | nil => simp [accumPoints, assignedPoints]
      | cons a asRest =>
          rw [accumPoints, assignedPoints_cons]
          by_cases hai : a = i
          · subst hai
            rw [if_pos rfl,
              ih asRest _ _ (by rw [updateAt_length]; exact hi),
              getD_updateAt_self _ _ _ _ hi]
            rfl
          · rw [if_neg hai,
              ih asRest _ _ (by rw [updateAt_length]; exact hi),
              getD_updateAt_ne _ _ _ _ _ hai]

theorem accumPoints_snd_getD (i : ℕ) : ∀ (ds : List Vec) (asg : List ℕ)
    (cents : List Vec) (counts : List ℕ), i < counts.length →
    (accumPoints ds asg cents counts).2.getD i 0 =
      counts.getD i 0 + (assignedPoints ds asg i).length := by
  intro ds
  induction ds with
  | nil =>
      intro asg cents counts hi
      simp [accumPoints, assignedPoints]
  | cons x xs ih =>
      intro asg cents counts hi
      cases asg with
      | nil => simp [accumPoints, assignedPoints]
      | cons a asRest =>
          rw [accumPoints, assignedPoints_cons]
          by_cases hai : a = i
          · subst hai
            rw [ih asRest _ _ (by rw [updateAt_length]; exact hi),
              getD_updateAt_self _ _ _ _ hi, if_pos rfl]
            simp only [List.length_cons]
            omega
          · rw [if_neg hai,
              ih asRest _ _ (by rw [updateAt_length]; exact hi),
              getD_updateAt_ne _ _ _ _ _ hai]

theorem divideByCounts_getD : ∀ (cs : List Vec) (ks : List ℕ) (i : ℕ),
    i < cs.length → i < ks.length →
    (divideByCounts cs ks).getD i [] =
      (if ks.getD i 0 ≠ 0
        then (cs.getD i []).map (· / ((ks.getD i 0 : ℕ) : ℚ))
        else cs.getD i []) := by
  intro cs
  induction cs with
  | nil =>
      intro ks i h1 h2
      simp at h1
  | cons c cs ih =>
      intro ks i h1 h2
      cases ks with
      | nil => simp at h2
      | cons k ks =>
          cases i with
          | zero => simp [divideByCounts]
          | succ n =>
              simp only [divideByCounts, List.getD_cons_succ]
              exact ih ks n (by simp only [List.length_cons] at h1; omega)
                (by simp only [List.length_cons] at h2; omega)

/-- Claim C7: the initial centroids derived from per-point assignments are
the arithmetic means of the points assigned to each cluster; the derived
count for each cluster is the number of points assigned to it; and a cluster
to which no point was assigned keeps an all-zero centroid at this stage.
The hypothesis that every assignment is a valid cluster index mirrors the
C++ precondition (an out-of-range assignment would be an out-of-bounds
armadillo access). -/
theorem initial_centroids_average_assigned_points (nrows clusters : ℕ)
    (ds : List Vec) (asg : List ℕ) (i : ℕ)
    (hi : i < clusters) (ha : ∀ a ∈ asg, a < clusters) :
    (initialCentroidsFromAssignments nrows ds asg clusters).1.getD i [] =
        clusterMean nrows ds asg i ∧
      (initialCentroidsFromAssignments nrows ds asg clusters).2.getD i 0 =
        (assignedPoints ds asg i).length ∧
      ((assignedPoints ds asg i).length = 0 →
        (initialCentroidsFromAssignments nrows ds asg clusters).1.getD
          i [] = zeroVec nrows) := by
  have hlen1 : i < (accumPoints ds asg
      (List.replicate clusters (zeroVec nrows))
      (List.replicate clusters 0)).1.length := by
    rw [accumPoints_fst_length, List.length_replicate]
    exact hi
  have hlen2 : i < (accumPoints ds asg
      (List.replicate clusters (zeroVec nrows))
      (List.replicate clusters 0)).2.length := by
    rw [accumPoints_snd_length, List.length_replicate]
    exact hi
  have hacc : (accumPoints ds asg (List.replicate clusters (zeroVec nrows))
      (List.replicate clusters 0)).1.getD i [] =
      (assignedPoints ds asg i).foldl vecAdd (zeroVec nrows) := by
    rw [accumPoints_fst_getD i ds asg _ _
      (by rw [List.length_replicate]; exact hi)]
    rw [getD_replicate_of_lt _ _ _ _ hi]
  have hcnt : (accumPoints ds asg (List.replicate clusters (zeroVec nrows))
      (List.replicate clusters 0)).2.getD i 0 =
      (assignedPoints ds asg i).length := by
    rw [accumPoints_snd_getD i ds asg _ _
      (by rw [List.length_replicate]; exact hi)]
    rw [getD_replicate_of_lt _ _ _ _ hi]
    omega
  have hmain : (initialCentroidsFromAssignments nrows ds asg
      clusters).1.getD i [] = clusterMean nrows ds asg i := by
    show (divideByCounts _ _).getD i [] = _
    rw [divideByCounts_getD _ _ i hlen1 hlen2, hcnt, hacc]
    unfold clusterMean
    by_cases hz : (assignedPoints ds asg i).length = 0
    · rw [if_neg (fun hne => hne hz), if_pos hz,
        List.length_eq_zero.mp hz]
      rfl
    · rw [if_pos hz, if_neg hz]
  refine ⟨hmain, hcnt, ?_⟩
  intro hz
  rw [hmain]
  unfold clusterMean
  rw [if_pos hz]

/-- Witness for C7: dataset {0, 2} with both points assigned to cluster 0;
cluster 1 receives no point and keeps the all-zero centroid. -/
theorem initial_centroids_average_assigned_points_witness :
    1 < 2 ∧ (∀ a ∈ [0, 0], a < 2) ∧
      ((initialCentroidsFromAssignments 1 [[0], [2]] [0, 0] 2).1.getD 1 [] =
          clusterMean 1 [[0], [2]] [0, 0] 1 ∧
        (initialCentroidsFromAssignments 1 [[0], [2]] [0, 0] 2).2.getD 1 0 =
          (assignedPoints [[0], [2]] [0, 0] 1).length ∧
        ((assignedPoints [[0], [2]] [0, 0] 1).length = 0 →
          (initialCentroidsFromAssignments 1 [[0], [2]] [0, 0] 2).1.getD
            1 [] = zeroVec 1)) :=
  ⟨by decide, by decide,
    initial_centroids_average_assigned_points 1 2 [[0], [2]] [0, 0] 1
      (by decide) (by decide)⟩
